import Mathlib

/-!
Verification of the Fe64 NNUE training core.

This file shallowly embeds the parts of `training/train_nnue.py`
(`NNUENetwork`) and `training/train_from_lichess.py` (`NNUETrainer`) that the
specification's claims are about, and proves or refutes each claim.

Modelling conventions:
* Bytes are natural numbers; a serialized float32 is modelled as its 4-byte
  chunk (`List ℕ` of length 4), so "bit-identical" is plain equality of
  chunks.  The weight-file parser (`NNUENetwork.load` /
  `NNUETrainer.load_weights` — both are textually the same routine) is
  modelled byte-for-byte, including `f.read`'s short-read behaviour,
  `np.frombuffer`'s multiple-of-itemsize check, `reshape`'s element-count
  check, and `[0]` indexing on a possibly empty array.
* Numeric code is modelled over exact rationals ℚ; float32 rounding is
  idealized away (every claim below is about the algebraic structure of the
  computation, not about rounding).  Matrices are functions out of `Fin`
  with the layer widths as parameters, since the Python code is
  width-generic (the widths 768/256/32 enter only through the constants).
* `np.clip(x, 0, 1)` is `min (max x 0) 1`; `np.where(features > 0)[0]` is
  the filter of indices with a positive entry.
-/

namespace Fe64

/-! ### Byte-level weight serialization
Models `NNUENetwork.load`/`save` (train_nnue.py:42-67) and the identical
`NNUETrainer.load_weights`/`save_weights` (train_from_lichess.py:56-92).
Sizes: input 768×256 floats = 786432 bytes, hidden1 bias 256 floats = 1024
bytes, hidden1 weights 256×32 = 32768 bytes, hidden2 bias 32 = 128 bytes,
hidden2 weights 32 = 128 bytes, output bias 1 float = 4 bytes; total
(768*256+256+256*32+32+32+1)*4 = 820484 bytes. -/

/-- Byte buffers: lists of naturals. -/
abbrev Bytes := List ℕ

/-- Group a byte buffer into consecutive 4-byte float32 chunks (the element
grouping performed by `np.frombuffer(..., dtype=np.float32)`).  On buffers
whose length is not a multiple of 4 the final short chunk is produced, but
`frombuffer` below rejects those buffers before this matters. -/
def chunk4 : Bytes → List Bytes
  | a :: b :: c :: d :: rest => [a, b, c, d] :: chunk4 rest
  | [] => []
  | l => [l]

/-- Model of `np.frombuffer(buf, dtype=np.float32)`: fails (raises
`ValueError`) unless the buffer length is a multiple of the 4-byte item
size, otherwise yields the list of float32 chunks. -/
def frombuffer (b : Bytes) : Option (List Bytes) :=
  if b.length % 4 = 0 then some (chunk4 b) else none

/-- Model of `.reshape(r, c)` on a 1-D array of float32 values: fails
(raises `ValueError`) unless the element count is exactly `n = r*c`.  The
2-D shape itself is immaterial to serialization: `tobytes()` of the
row-major matrix is exactly the flat byte sequence, so matrices are kept
flat here. -/
def reshapeGuard (n : ℕ) (ws : List Bytes) : Option (List Bytes) :=
  if ws.length = n then some ws else none

/-- Serialized network parameters, each float32 kept as its 4-byte chunk:
`iw` = input_weights (768×256, row-major flat), `h1b` = hidden1_bias,
`h1w` = hidden1_weights (256×32 flat), `h2b` = hidden2_bias,
`h2w` = hidden2_weights, `ob` = output_bias (one 4-byte chunk). -/
structure RawNet where
  iw : List Bytes
  h1b : List Bytes
  h1w : List Bytes
  h2b : List Bytes
  h2w : List Bytes
  ob : Bytes
  deriving DecidableEq

/-- Model of `NNUENetwork.load` (train_nnue.py:42-56) and
`NNUETrainer.load_weights` (train_from_lichess.py:56-69).  The original
reads the file sequentially with `f.read(n)` (which returns *at most* `n`
bytes), so the successive segments are the takes/drops below.  Failure
(`none`) models any raised exception: `np.frombuffer` on a length that is
not a multiple of 4, `.reshape` on a wrong element count, or `[0]` on an
empty array.  Note that the routine never checks that the buffer is
exhausted: trailing bytes after the 820484-byte prefix are ignored. -/
def load (b : Bytes) : Option RawNet :=
  (frombuffer (b.take 786432)).bind fun iwW =>
  (reshapeGuard 196608 iwW).bind fun iw =>
  (frombuffer ((b.drop 786432).take 1024)).bind fun h1b =>
  (frombuffer (((b.drop 786432).drop 1024).take 32768)).bind fun h1wW =>
  (reshapeGuard 8192 h1wW).bind fun h1w =>
  (frombuffer ((((b.drop 786432).drop 1024).drop 32768).take 128)).bind fun h2b =>
  (frombuffer (((((b.drop 786432).drop 1024).drop 32768).drop 128).take 128)).bind fun h2w =>
  (frombuffer ((((((b.drop 786432).drop 1024).drop 32768).drop 128).drop 128).take 4)).bind fun obW =>
  (obW.get? 0).map fun ob =>
  ⟨iw, h1b, h1w, h2b, h2w, ob⟩

/-- Model of `NNUENetwork.save` (train_nnue.py:58-67) and
`NNUETrainer.save_weights` (train_from_lichess.py:72-81): the six fields'
`tobytes()` concatenated in order.  `astype(np.float32)` on data that is
already float32 is the bit-identity, so it does not appear. -/
def save (n : RawNet) : Bytes :=
  n.iw.flatten ++ n.h1b.flatten ++ n.h1w.flatten ++ n.h2b.flatten ++ n.h2w.flatten ++ n.ob

/-- Well-formedness of an in-memory network for serialization purposes:
the field element counts of the fixed architecture, every float being a
4-byte chunk. -/
def wfRaw (n : RawNet) : Prop :=
  n.iw.length = 196608 ∧ (∀ w ∈ n.iw, w.length = 4) ∧
  n.h1b.length = 256 ∧ (∀ w ∈ n.h1b, w.length = 4) ∧
  n.h1w.length = 8192 ∧ (∀ w ∈ n.h1w, w.length = 4) ∧
  n.h2b.length = 32 ∧ (∀ w ∈ n.h2b, w.length = 4) ∧
  n.h2w.length = 32 ∧ (∀ w ∈ n.h2w, w.length = 4) ∧
  n.ob.length = 4

/-- The all-zero network (every float32 the zero bit pattern). -/
def zeroRaw : RawNet :=
  ⟨List.replicate 196608 [0, 0, 0, 0], List.replicate 256 [0, 0, 0, 0],
   List.replicate 8192 [0, 0, 0, 0], List.replicate 32 [0, 0, 0, 0],
   List.replicate 32 [0, 0, 0, 0], [0, 0, 0, 0]⟩

/-! ### Numeric model of the network over exact rationals
The Python numeric code is width-generic, so the model is parametrized by
the three layer widths `nIn`, `n1`, `n2` (768, 256, 32 in the scripts). -/

/-- In-memory network parameters, as used by the numeric pipeline:
`w1` = input_weights (`nIn × n1`), `b1` = hidden1_bias, `w2` =
hidden1_weights (`n1 × n2`), `b2` = hidden2_bias, `w3` = hidden2_weights,
`bOut` = output_bias. -/
@[ext]
structure QNet (nIn n1 n2 : ℕ) where
  w1 : Fin nIn → Fin n1 → ℚ
  b1 : Fin n1 → ℚ
  w2 : Fin n1 → Fin n2 → ℚ
  b2 : Fin n2 → ℚ
  w3 : Fin n2 → ℚ
  bOut : ℚ

/-- Clipped ReLU `np.clip(x, 0, 1)` (train_nnue.py:100, train_from_lichess.py:97). -/
def crelu (x : ℚ) : ℚ := min (max x 0) 1

/-- Derivative mask of the clipped ReLU, `((x > 0) & (x < 1)).astype(float32)`
(train_nnue.py:144-145,152-153; train_from_lichess.py:100-102). -/
def creluDeriv (x : ℚ) : ℚ := if 0 < x ∧ x < 1 then 1 else 0

variable {nIn n1 n2 : ℕ}

/-- Active feature indices `np.where(features > 0)[0]` (train_nnue.py:97). -/
def activeIdx (v : Fin nIn → ℚ) : Finset (Fin nIn) :=
  Finset.univ.filter (fun i => 0 < v i)

/-- Hidden1 pre-activation of `NNUENetwork.forward`/`forward_with_cache`
(train_nnue.py:96-99,112-115): the bias plus the sum of the rows of `w1`
at the active indices (sparse accumulation). -/
def nnH1pre (net : QNet nIn n1 n2) (v : Fin nIn → ℚ) (j : Fin n1) : ℚ :=
  net.b1 j + ∑ i ∈ activeIdx v, net.w1 i j

/-- Hidden1 activation in `NNUENetwork.forward` (train_nnue.py:100). -/
def nnH1 (net : QNet nIn n1 n2) (v : Fin nIn → ℚ) (j : Fin n1) : ℚ :=
  crelu (nnH1pre net v j)

/-- Hidden2 pre-activation in `NNUENetwork.forward` (train_nnue.py:103). -/
def nnH2pre (net : QNet nIn n1 n2) (v : Fin nIn → ℚ) (k : Fin n2) : ℚ :=
  net.b2 k + ∑ j, nnH1 net v j * net.w2 j k

/-- Hidden2 activation in `NNUENetwork.forward` (train_nnue.py:104). -/
def nnH2 (net : QNet nIn n1 n2) (v : Fin nIn → ℚ) (k : Fin n2) : ℚ :=
  crelu (nnH2pre net v k)

/-- Output of `NNUENetwork.forward` (train_nnue.py:107): sparse-accumulation
forward pass. -/
def nnForward (net : QNet nIn n1 n2) (v : Fin nIn → ℚ) : ℚ :=
  net.bOut + ∑ k, nnH2 net v k * net.w3 k

/-- Error term of `NNUENetwork.backward` (train_nnue.py:134-137): the output
recomputed from the cached hidden2 minus the target. -/
def nnErr (net : QNet nIn n1 n2) (v : Fin nIn → ℚ) (tg : ℚ) : ℚ :=
  nnForward net v - tg

/-- Gradient through the second clipped ReLU in `NNUENetwork.backward`
(train_nnue.py:141-146): `d_hidden2_pre = (error * hidden2_weights) * mask2`. -/
def nnDH2pre (net : QNet nIn n1 n2) (v : Fin nIn → ℚ) (tg : ℚ) (k : Fin n2) : ℚ :=
  nnErr net v tg * net.w3 k * creluDeriv (nnH2pre net v k)

/-- Gradient through the first clipped ReLU in `NNUENetwork.backward`
(train_nnue.py:148-154): `d_hidden1_pre = (d_hidden2_pre @ W2.T) * mask1`. -/
def nnDH1pre (net : QNet nIn n1 n2) (v : Fin nIn → ℚ) (tg : ℚ) (j : Fin n1) : ℚ :=
  (∑ k, nnDH2pre net v tg k * net.w2 j k) * creluDeriv (nnH1pre net v j)

/-- One per-sample gradient step: `NNUENetwork.forward_with_cache` followed by
`NNUENetwork.backward(cache, tg, lr)` (train_nnue.py:110-168).  All gradients
are computed from the pre-update parameters (the source computes every
gradient before mutating, lines 134-154 before 156-166); only the rows of
`w1` at the active indices are touched (lines 163-166). -/
def singleUpdate (net : QNet nIn n1 n2) (v : Fin nIn → ℚ) (tg lr : ℚ) : QNet nIn n1 n2 where
  w1 := fun i j => if 0 < v i then net.w1 i j - lr * nnDH1pre net v tg j else net.w1 i j
  b1 := fun j => net.b1 j - lr * nnDH1pre net v tg j
  w2 := fun j k => net.w2 j k - lr * (nnH1 net v j * nnDH2pre net v tg k)
  b2 := fun k => net.b2 k - lr * nnDH2pre net v tg k
  w3 := fun k => net.w3 k - lr * (nnErr net v tg * nnH2 net v k)
  bOut := net.bOut - lr * nnErr net v tg

/-- Dense hidden1 pre-activation `z1 = input_vec @ W1 + b1` of
`NNUETrainer.forward`/`train_batch` (train_from_lichess.py:127-128,152). -/
def trZ1 (net : QNet nIn n1 n2) (v : Fin nIn → ℚ) (j : Fin n1) : ℚ :=
  (∑ i, v i * net.w1 i j) + net.b1 j

/-- Dense hidden1 activation (train_from_lichess.py:127-128,153). -/
def trH1 (net : QNet nIn n1 n2) (v : Fin nIn → ℚ) (j : Fin n1) : ℚ :=
  crelu (trZ1 net v j)

/-- Dense hidden2 pre-activation `z2 = hidden1 @ W2 + b2`
(train_from_lichess.py:130-131,154). -/
def trZ2 (net : QNet nIn n1 n2) (v : Fin nIn → ℚ) (k : Fin n2) : ℚ :=
  (∑ j, trH1 net v j * net.w2 j k) + net.b2 k

/-- Dense hidden2 activation (train_from_lichess.py:130-131,155). -/
def trH2 (net : QNet nIn n1 n2) (v : Fin nIn → ℚ) (k : Fin n2) : ℚ :=
  crelu (trZ2 net v k)

/-- Output of the dense forward pass `NNUETrainer.forward`
(train_from_lichess.py:124-134, output component; also train_batch line 156). -/
def trOut (net : QNet nIn n1 n2) (v : Fin nIn → ℚ) : ℚ :=
  (∑ k, trH2 net v k * net.w3 k) + net.bOut

/-- Full result of `NNUETrainer.forward`: `(output, hidden1, hidden2)`. -/
def trForward (net : QNet nIn n1 n2) (v : Fin nIn → ℚ) :
    ℚ × (Fin n1 → ℚ) × (Fin n2 → ℚ) :=
  (trOut net v, trH1 net v, trH2 net v)

/-- Per-sample error in `NNUETrainer.train_batch` (train_from_lichess.py:159-160):
`error = output - target / NNUE_SCALE` with `NNUE_SCALE = 400`. -/
def trErr (net : QNet nIn n1 n2) (v : Fin nIn → ℚ) (t : ℚ) : ℚ :=
  trOut net v - t / 400

/-- Output-layer gradient in `train_batch` (train_from_lichess.py:164):
`d_output = 2 * error / batch_size`. -/
def trDOut (net : QNet nIn n1 n2) (v : Fin nIn → ℚ) (t B : ℚ) : ℚ :=
  2 * trErr net v t / B

/-- Hidden2 gradient in `train_batch` (train_from_lichess.py:169-170). -/
def trDH2 (net : QNet nIn n1 n2) (v : Fin nIn → ℚ) (t B : ℚ) (k : Fin n2) : ℚ :=
  trDOut net v t B * net.w3 k * creluDeriv (trZ2 net v k)

/-- Hidden1 gradient in `train_batch` (train_from_lichess.py:174-175). -/
def trDH1 (net : QNet nIn n1 n2) (v : Fin nIn → ℚ) (t B : ℚ) (j : Fin n1) : ℚ :=
  (∑ k, trDH2 net v t B k * net.w2 j k) * creluDeriv (trZ1 net v j)

/-- Per-sample contribution to the gradient accumulators of `train_batch`
(train_from_lichess.py:150-177), collected in a `QNet` used as a gradient
record: e.g. `grad_input_weights += np.outer(input_vec, d_hidden1)`. -/
def batchGrad (net : QNet nIn n1 n2) (s : (Fin nIn → ℚ) × ℚ) (B : ℚ) : QNet nIn n1 n2 where
  w1 := fun i j => s.1 i * trDH1 net s.1 s.2 B j
  b1 := fun j => trDH1 net s.1 s.2 B j
  w2 := fun j k => trH1 net s.1 j * trDH2 net s.1 s.2 B k
  b2 := fun k => trDH2 net s.1 s.2 B k
  w3 := fun k => trDOut net s.1 s.2 B * trH2 net s.1 k
  bOut := trDOut net s.1 s.2 B

/-- The all-zero gradient record (the `np.zeros_like` accumulators,
train_from_lichess.py:141-146). -/
def qzero (nIn n1 n2 : ℕ) : QNet nIn n1 n2 :=
  ⟨fun _ _ => 0, fun _ => 0, fun _ _ => 0, fun _ => 0, fun _ => 0, 0⟩

/-- Fieldwise sum of two gradient records (the `+=` accumulation). -/
def qadd (a b : QNet nIn n1 n2) : QNet nIn n1 n2 where
  w1 := fun i j => a.w1 i j + b.w1 i j
  b1 := fun j => a.b1 j + b.b1 j
  w2 := fun j k => a.w2 j k + b.w2 j k
  b2 := fun k => a.b2 k + b.b2 k
  w3 := fun k => a.w3 k + b.w3 k
  bOut := a.bOut + b.bOut

/-- Apply the aggregated gradient: `parameter - learning_rate * grad` for
every field (train_from_lichess.py:179-191; the `astype(np.float32)`
re-rounding is the identity in the exact-arithmetic model). -/
def applyGrads (net g : QNet nIn n1 n2) (lr : ℚ) : QNet nIn n1 n2 where
  w1 := fun i j => net.w1 i j - lr * g.w1 i j
  b1 := fun j => net.b1 j - lr * g.b1 j
  w2 := fun j k => net.w2 j k - lr * g.w2 j k
  b2 := fun k => net.b2 k - lr * g.b2 k
  w3 := fun k => net.w3 k - lr * g.w3 k
  bOut := net.bOut - lr * g.bOut

/-- Model of `NNUETrainer.train_batch` (train_from_lichess.py:136-193):
accumulate per-sample gradients over the batch, apply one aggregated
update, and return the updated parameters together with the mean squared
error `total_loss / batch_size`. -/
def trainBatch (net : QNet nIn n1 n2) (samples : List ((Fin nIn → ℚ) × ℚ)) (lr : ℚ) :
    QNet nIn n1 n2 × ℚ :=
  (applyGrads net
      (samples.foldl (fun a s => qadd a (batchGrad net s (samples.length : ℚ)))
        (qzero nIn n1 n2)) lr,
   (samples.foldl (fun a s => a + trErr net s.1 s.2 ^ 2) 0) / (samples.length : ℚ))

/-! ### Epoch batching
`train_nnue` (train_nnue.py:328-344) slices the shuffled positions into
`batch_size`-sized pieces and runs the per-sample `backward` on **every**
sample of **every** slice; `main` in train_from_lichess.py (lines 397-407)
slices the data the same way but skips (`continue`) any slice smaller than
`batch_size // 2` before calling `train_batch`. -/

/-- Fuel-driven worker for `chunks` (structural recursion on the fuel, which
is always sufficient when the step is positive). -/
def chunksF : ℕ → ℕ → List α → List (List α)
  | _, _, [] => []
  | 0, _, _ :: _ => []
  | f + 1, bs, x :: xs => (x :: xs).take bs :: chunksF f bs (xs.drop (bs - 1))

/-- The successive slices `data[i:i+bs]` for `i in range(0, len(data), bs)`
(train_nnue.py:328-329, train_from_lichess.py:397-398), for step `bs ≥ 1`
(Python raises on step 0). -/
def chunks (bs : ℕ) (l : List α) : List (List α) := chunksF l.length bs l

/-- One epoch of the `train_nnue` training loop (train_nnue.py:328-344):
every sample of every slice is pushed through `forward_with_cache` and
`backward(cache, target / SCALE, lr)`; the second component is the
`num_samples` counter, incremented once per processed sample. -/
def nnueEpoch (net : QNet nIn n1 n2) (samples : List ((Fin nIn → ℚ) × ℚ))
    (bs : ℕ) (lr : ℚ) : QNet nIn n1 n2 × ℕ :=
  (chunks bs samples).foldl
    (fun st batch =>
      batch.foldl (fun st2 s => (singleUpdate st2.1 s.1 (s.2 / 400) lr, st2.2 + 1)) st)
    (net, 0)

/-- One iteration of the batch loop in `main` (train_from_lichess.py:398-407):
state is (net, epoch_loss, num_batches); a slice smaller than
`batch_size // 2` is skipped (`continue`) and leaves the state untouched,
otherwise `train_batch` is run and its loss accumulated. -/
def lichessStep (bs : ℕ) (lr : ℚ) (st : QNet nIn n1 n2 × ℚ × ℕ)
    (batch : List ((Fin nIn → ℚ) × ℚ)) : QNet nIn n1 n2 × ℚ × ℕ :=
  if batch.length < bs / 2 then st
  else ((trainBatch st.1 batch lr).1, st.2.1 + (trainBatch st.1 batch lr).2, st.2.2 + 1)

/-- One epoch of the train_from_lichess training loop (train_from_lichess.py:397-407). -/
def lichessEpoch (net : QNet nIn n1 n2) (data : List ((Fin nIn → ℚ) × ℚ))
    (bs : ℕ) (lr : ℚ) : QNet nIn n1 n2 × ℚ × ℕ :=
  (chunks bs data).foldl (lichessStep bs lr) (net, 0, 0)

/-! ### Board feature encoders -/

/-- A piece placement: (piece type as the 0..5 channel of the `piece_map`
dicts — pawn, knight, bishop, rook, queen, king —, colour flag `true` for
black, python-chess square 0..63 with a1 = 0, square = rank*8 + file). -/
abbrev Placement := Fin 6 × Bool × Fin 64

/-- A board position, abstracted to its piece placements (at most one piece
per square on a real board, though nothing here needs that). -/
abbrev Board := List Placement

/-- The piece channel `piece_idx`, `+ 6` for black pieces
(train_nnue.py:81-83, train_from_lichess.py:116-118). -/
def pieceChannel (p : Placement) : ℕ := p.1.val + (if p.2.1 then 6 else 0)

/-- The square remap of `NNUENetwork.board_to_features` (train_nnue.py:84-87):
`our_sq = (7 - rank) * 8 + file`, the engine's a8 = 0, h1 = 63 convention. -/
def engineSquare (sq : Fin 64) : ℕ := (7 - sq.val / 8) * 8 + sq.val % 8

/-- Feature index assigned by `NNUENetwork.board_to_features`
(train_nnue.py:88): `piece_idx * 64 + our_sq`. -/
def featureIdxRemap (p : Placement) : ℕ := pieceChannel p * 64 + engineSquare p.2.2

/-- Feature index assigned by `NNUETrainer.board_to_input`
(train_from_lichess.py:119): `piece_idx * 64 + square`, the python-chess
square used as-is. -/
def featureIdxDirect (p : Placement) : ℕ := pieceChannel p * 64 + p.2.2.val

/-- Set of active feature indices produced by `board_to_features`. -/
def featuresRemap (b : Board) : Finset ℕ := (b.map featureIdxRemap).toFinset

/-- Set of active feature indices produced by `board_to_input`. -/
def featuresDirect (b : Board) : Finset ℕ := (b.map featureIdxDirect).toFinset

/-- A single white pawn on a1 (python-chess square 0). -/
def pawnA1 : Board := [(⟨0, by omega⟩, false, ⟨0, by omega⟩)]

/-- A material-balanced board: a white pawn on a2 (square 8) and a black
pawn on a7 (square 48). -/
def pawnsBalanced : Board :=
  [(⟨0, by omega⟩, false, ⟨8, by omega⟩), (⟨0, by omega⟩, true, ⟨48, by omega⟩)]

/-! ### Target labelling -/

/-- Piece values of `simple_material_eval` in train_nnue.py:265-270. -/
def pieceValue (t : Fin 6) : ℤ := [100, 337, 365, 477, 1025, 0].getD t.val 0

/-- Material evaluation `simple_material_eval` (train_nnue.py:265-282):
sum of piece values, positive for white, negative for black. -/
def simpleMaterialEval (b : Board) : ℤ :=
  (b.map fun p => if p.2.1 then -pieceValue p.1 else pieceValue p.1).sum

/-- Blend weight `result_weight = min(0.8, ply / 100.0)` of
`calculate_target_eval` (train_from_lichess.py:292). -/
def resultWeight (ply : ℕ) : ℚ := min (8 / 10) ((ply : ℚ) / 100)

/-- Model of `calculate_target_eval` (train_from_lichess.py:279-298): blend
the material evaluation with the outcome score scaled to 300 centipawns. -/
def calculateTargetEval (ply : ℕ) (result material : ℚ) : ℚ :=
  (1 - resultWeight ply) * material + resultWeight ply * (result * 300)

/-- Target chosen inside the engine branch of `extract_positions_from_pgn`
(train_nnue.py:226-238): if the `engine.analyse` call succeeds, `res` is
`some cp` (centipawns, mate scores already mapped to ±10000) and the target
is the logistic squash of `cp`; if the call raises, the bare `except` binds
the target to `result_score` instead.  The squash `sig` (the `sigmoid` of
train_nnue.py:171-173, `1/(1+exp(-0.004 x))`) is transcendental and is
taken as a parameter: no claim here depends on its values, only on which
branch runs. -/
def analyseTarget (sig : ℚ → ℚ) (res : Option ℤ) (resultScore : ℚ) : ℚ :=
  match res with
  | some cp => sig (cp : ℚ)
  | none => resultScore

/-! ### Writability of loaded arrays
`np.frombuffer` returns arrays that are read-only views of the underlying
buffer (`WRITEABLE` flag cleared), so every array field assigned by
`NNUENetwork.load` is read-only, while `__init__`'s `np.random`/`np.zeros`
arrays are writable.  An in-place `-=` on a read-only array raises
`ValueError`; `output_bias` is a float32 *scalar*, so its `-=` merely
rebinds the attribute and always succeeds. -/

/-- Network parameters together with the writability flag of each of the
five parameter arrays (`output_bias` is a scalar, not an array). -/
structure FlagNet (nIn n1 n2 : ℕ) where
  net : QNet nIn n1 n2
  iwWritable : Bool
  b1Writable : Bool
  w2Writable : Bool
  b2Writable : Bool
  w3Writable : Bool

/-- A network as produced by `NNUENetwork.load` (train_nnue.py:42-56): every
array is a read-only `np.frombuffer` view. -/
def loadedFlagNet (q : QNet nIn n1 n2) : FlagNet nIn n1 n2 :=
  ⟨q, false, false, false, false, false⟩

/-- A freshly initialized network (`NNUENetwork.__init__`,
train_nnue.py:30-40): every array is writable. -/
def freshFlagNet (q : QNet nIn n1 n2) : FlagNet nIn n1 n2 :=
  ⟨q, true, true, true, true, true⟩

/-- Model of `NNUENetwork.backward`'s update phase (train_nnue.py:156-166)
over flagged arrays.  Gradients are all computed before any mutation; the
updates then run in source order — `output_bias` (scalar, always
succeeds), `hidden2_weights`, `hidden2_bias`, `hidden1_weights`,
`hidden1_bias`, and finally the active rows of `input_weights` (executed
only when there is at least one active index).  The first `-=` that hits a
read-only array raises: the returned flag is `false` and the returned state
is the state at the raise. -/
def backwardFlagged (fn : FlagNet nIn n1 n2) (v : Fin nIn → ℚ) (tg lr : ℚ) :
    FlagNet nIn n1 n2 × Bool :=
  let q := fn.net
  let s1 : QNet nIn n1 n2 := { q with bOut := q.bOut - lr * nnErr q v tg }
  if fn.w3Writable = false then ({ fn with net := s1 }, false) else
  let s2 := { s1 with w3 := fun k => q.w3 k - lr * (nnErr q v tg * nnH2 q v k) }
  if fn.b2Writable = false then ({ fn with net := s2 }, false) else
  let s3 := { s2 with b2 := fun k => q.b2 k - lr * nnDH2pre q v tg k }
  if fn.w2Writable = false then ({ fn with net := s3 }, false) else
  let s4 := { s3 with w2 := fun j k => q.w2 j k - lr * (nnH1 q v j * nnDH2pre q v tg k) }
  if fn.b1Writable = false then ({ fn with net := s4 }, false) else
  let s5 := { s4 with b1 := fun j => q.b1 j - lr * nnDH1pre q v tg j }
  if 0 < (activeIdx v).card then
    if fn.iwWritable = false then ({ fn with net := s5 }, false)
    else ({ fn with net := { s5 with
      w1 := fun i j => if 0 < v i then q.w1 i j - lr * nnDH1pre q v tg j else q.w1 i j } },
      true)
  else ({ fn with net := s5 }, true)

/-! ### Concrete instances used by witnesses and counterexamples -/

/-- The zero-parameter network at the scripts' actual architecture. -/
def qzero768 : QNet 768 256 32 := qzero 768 256 32

/-- The empty-board feature vector at the actual input width. -/
def vzero768 : Fin 768 → ℚ := fun _ => 0

/-- A tiny concrete network (widths 1-1-1) whose forward pass lands strictly
inside both clipped-ReLU intervals, used to exhibit counterexamples. -/
def exNet : QNet 1 1 1 :=
  ⟨fun _ _ => 1 / 2, fun _ => 0, fun _ _ => 1 / 2, fun _ => 0, fun _ => 1, 0⟩

/-- The all-ones feature vector at input width 1. -/
def exV : Fin 1 → ℚ := fun _ => 1

/-- The zero network at widths 1-1-1. -/
def qz1 : QNet 1 1 1 := qzero 1 1 1

/-- The zero feature vector at input width 1. -/
def zeroV1 : Fin 1 → ℚ := fun _ => 0

/-- Sixty-five identical trivial samples: with batch size 64 they produce one
full batch and a final partial batch of a single sample. -/
def samples65 : List ((Fin 1 → ℚ) × ℚ) := List.replicate 65 (zeroV1, 0)

/-! ## Helper lemmas for the byte-level serialization model -/

theorem flatten4_len (ws : List Bytes) (h : ∀ w ∈ ws, w.length = 4) :
    ws.flatten.length = 4 * ws.length := by
  induction ws with
  | nil => simp
  | cons w ws ih =>
    simp only [List.flatten_cons, List.length_append, List.length_cons]
    rw [h w (List.mem_cons_self _ _), ih (fun x hx => h x (List.mem_cons_of_mem _ hx))]
    ring

theorem chunk4_flatten (ws : List Bytes) (h : ∀ w ∈ ws, w.length = 4) :
    chunk4 ws.flatten = ws := by
  induction ws with
  | nil => simp [chunk4]
  | cons w ws ih =>
    have hw : w.length = 4 := h w (List.mem_cons_self _ _)
    obtain ⟨a, b, c, d, rfl⟩ : ∃ a b c d, w = [a, b, c, d] := by
      rcases w with _ | ⟨a, _ | ⟨b, _ | ⟨c, _ | ⟨d, _ | ⟨e, es⟩⟩⟩⟩⟩
      · simp at hw
      · simp at hw
      · simp at hw
      · simp at hw
      · exact ⟨a, b, c, d, rfl⟩
      · simp at hw
    simp only [List.flatten_cons, List.cons_append, List.nil_append]
    rw [show chunk4 (a :: b :: c :: d :: ws.flatten) = [a, b, c, d] :: chunk4 ws.flatten
        from rfl]
    rw [ih (fun x hx => h x (List.mem_cons_of_mem _ hx))]

theorem frombuffer_flatten (ws : List Bytes) (h : ∀ w ∈ ws, w.length = 4) :
    frombuffer ws.flatten = some ws := by
  rw [frombuffer, flatten4_len ws h, if_pos (by omega), chunk4_flatten ws h]

theorem save_length {n : RawNet} (hn : wfRaw n) : (save n).length = 820484 := by
  obtain ⟨hiw, hiw4, hb1, hb14, hw1, hw14, hb2, hb24, hw2, hw24, hob⟩ := hn
  simp only [save, List.length_append, flatten4_len _ hiw4, flatten4_len _ hb14,
    flatten4_len _ hw14, flatten4_len _ hb24, flatten4_len _ hw24, hiw, hb1, hw1,
    hb2, hw2, hob]

theorem load_save_append (n : RawNet) (hn : wfRaw n) (extra : Bytes) :
    load (save n ++ extra) = some n := by
  obtain ⟨hiw, hiw4, hb1, hb14, hw1, hw14, hb2, hb24, hw2, hw24, hob⟩ := hn
  have lA : n.iw.flatten.length = 786432 := by rw [flatten4_len _ hiw4, hiw]
  have lB : n.h1b.flatten.length = 1024 := by rw [flatten4_len _ hb14, hb1]
  have lC : n.h1w.flatten.length = 32768 := by rw [flatten4_len _ hw14, hw1]
  have lD : n.h2b.flatten.length = 128 := by rw [flatten4_len _ hb24, hb2]
  have lE : n.h2w.flatten.length = 128 := by rw [flatten4_len _ hw24, hw2]
  have hsave : save n ++ extra
      = n.iw.flatten ++ (n.h1b.flatten ++ (n.h1w.flatten ++ (n.h2b.flatten ++
        (n.h2w.flatten ++ (n.ob ++ extra))))) := by
    simp [save, List.append_assoc]
  have hobf : frombuffer n.ob = some [n.ob] := by
    have := frombuffer_flatten [n.ob] (by simpa using hob)
    simpa using this
  rw [load, hsave]
  rw [List.take_left' lA, List.drop_left' lA]
  rw [List.take_left' lB, List.drop_left' lB]
  rw [List.take_left' lC, List.drop_left' lC]
  rw [List.take_left' lD, List.drop_left' lD]
  rw [List.take_left' lE, List.drop_left' lE]
  rw [List.take_left' hob]
  rw [frombuffer_flatten _ hiw4, frombuffer_flatten _ hb14, frombuffer_flatten _ hw14,
    frombuffer_flatten _ hb24, frombuffer_flatten _ hw24, hobf]
  simp [reshapeGuard, hiw, hw1, hob]

theorem chunk4_nil_iff (l : Bytes) : chunk4 l = [] ↔ l = [] := by
  rcases l with _ | ⟨a, _ | ⟨b, _ | ⟨c, _ | ⟨d, rest⟩⟩⟩⟩ <;> simp [chunk4]

theorem frombuffer_get_length {t : Bytes} {w : List Bytes} {z : Bytes}
    (hf : frombuffer (t.take 4) = some w) (hg : w.get? 0 = some z) :
    4 ≤ t.length := by
  rw [frombuffer] at hf
  by_cases hmod : (t.take 4).length % 4 = 0
  · rw [if_pos hmod] at hf
    obtain rfl : chunk4 (t.take 4) = w := Option.some.inj hf
    have hne : t.take 4 ≠ [] := by
      intro he
      rw [he] at hg
      simp [chunk4] at hg
    have hlt := List.length_take 4 t
    have h0 : (t.take 4).length ≠ 0 := fun h0 => hne (List.length_eq_zero.mp h0)
    omega
  · rw [if_neg hmod] at hf
    simp at hf

theorem load_some_length {b : Bytes} {n : RawNet} (h : load b = some n) :
    820484 ≤ b.length := by
  rw [load] at h
  simp only [Option.bind_eq_some, Option.map_eq_some'] at h
  obtain ⟨iwW, h1, iw, h2, h1b, h3, h1wW, h4, h1w, h5, h2b, h6, h2w, h7, obW, h8, ob, h9, -⟩ := h
  have hlen := frombuffer_get_length h8 h9
  simp only [List.length_drop] at hlen
  omega

theorem load_take (b : Bytes) : load b = load (b.take 820484) := by
  have e1 : (b.take 820484).take 786432 = b.take 786432 := by
    rw [List.take_take]
    congr 1
  have e2 : ((b.take 820484).drop 786432).take 1024 = (b.drop 786432).take 1024 := by
    simp only [List.drop_take, List.take_take]
    congr 1
  have e3 : (((b.take 820484).drop 786432).drop 1024).take 32768
      = ((b.drop 786432).drop 1024).take 32768 := by
    simp only [List.drop_take, List.take_take]
    congr 1
  have e4 : ((((b.take 820484).drop 786432).drop 1024).drop 32768).take 128
      = (((b.drop 786432).drop 1024).drop 32768).take 128 := by
    simp only [List.drop_take, List.take_take]
    congr 1
  have e5 : (((((b.take 820484).drop 786432).drop 1024).drop 32768).drop 128).take 128
      = ((((b.drop 786432).drop 1024).drop 32768).drop 128).take 128 := by
    simp only [List.drop_take, List.take_take]
    congr 1
  have e6 : ((((((b.take 820484).drop 786432).drop 1024).drop 32768).drop 128).drop 128).take 4
      = (((((b.drop 786432).drop 1024).drop 32768).drop 128).drop 128).take 4 := by
    simp only [List.drop_take, List.take_take]
    congr 1
  rw [load, load, e1, e2, e3, e4, e5, e6]

theorem zeroRaw_wf : wfRaw zeroRaw := by
  unfold wfRaw zeroRaw
  refine ⟨List.length_replicate _ _, fun w hw => ?_, List.length_replicate _ _,
    fun w hw => ?_, List.length_replicate _ _, fun w hw => ?_, List.length_replicate _ _,
    fun w hw => ?_, List.length_replicate _ _, fun w hw => ?_, rfl⟩ <;>
  · rw [List.mem_replicate] at hw
    rw [hw.2]
    rfl

/-! ## Claim theorems -/

/-- Claim C1, counterexample.  The claim states that deserialization fails on
*every* buffer whose length is not exactly 820484, never silently
truncating an over-long buffer.  But `load` never checks that the buffer is
exhausted: on the 820488-byte buffer obtained by appending four zero bytes
to a serialized network, `load` succeeds, silently ignoring the trailing
bytes. -/
theorem c1_counterexample :
    (save zeroRaw ++ [0, 0, 0, 0]).length ≠ 820484 ∧
    load (save zeroRaw ++ [0, 0, 0, 0]) = some zeroRaw := by
  constructor
  · have h4 : ([0, 0, 0, 0] : Bytes).length = 4 := rfl
    rw [List.length_append, save_length zeroRaw_wf, h4]
    omega
  · exact load_save_append zeroRaw zeroRaw_wf [0, 0, 0, 0]

/-- Claim C1, amended: deserialization of any buffer *shorter* than the
expected 820484 bytes fails (so a short buffer is never zero-padded into a
network), while a buffer of length at least 820484 is parsed purely from
its first 820484 bytes — an over-long buffer is accepted and its trailing
bytes silently ignored. -/
theorem c1_load_length (b : Bytes) :
    (b.length < 820484 → load b = none) ∧ load b = load (b.take 820484) := by
  constructor
  · intro hb
    cases hl : load b with
    | none => rfl
    | some n => exact absurd (load_some_length hl) (by omega)
  · exact load_take b

/-- Witness for C1's amended theorem at the empty buffer. -/
theorem c1_witness :
    load ([] : Bytes) = none ∧ load ([] : Bytes) = load (([] : Bytes).take 820484) :=
  ⟨(c1_load_length []).1 (by decide), (c1_load_length []).2⟩

/-- Claim C2: serializing any well-formed network and deserializing the
resulting byte sequence yields back exactly the same parameters — every
float32 chunk of every field is bit-identical. -/
theorem c2_roundtrip (n : RawNet) (hn : wfRaw n) : load (save n) = some n := by
  have h := load_save_append n hn []
  rwa [List.append_nil] at h

/-- Witness for C2 at the all-zero network. -/
theorem c2_witness : wfRaw zeroRaw ∧ load (save zeroRaw) = some zeroRaw :=
  ⟨zeroRaw_wf, c2_roundtrip zeroRaw zeroRaw_wf⟩

/-! ## Sparse / dense forward equivalence -/

theorem sum_active_eq_dense (v : Fin nIn → ℚ) (hv : ∀ i, v i = 0 ∨ v i = 1)
    (f : Fin nIn → ℚ) : ∑ i ∈ activeIdx v, f i = ∑ i, v i * f i := by
  rw [activeIdx, Finset.sum_filter]
  refine Finset.sum_congr rfl fun i _ => ?_
  rcases hv i with h | h <;> simp [h]

theorem nnH1pre_eq (net : QNet nIn n1 n2) (v : Fin nIn → ℚ)
    (hv : ∀ i, v i = 0 ∨ v i = 1) : nnH1pre net v = trZ1 net v := by
  funext j
  rw [nnH1pre, trZ1, sum_active_eq_dense v hv, add_comm]

theorem nnH1_eq (net : QNet nIn n1 n2) (v : Fin nIn → ℚ)
    (hv : ∀ i, v i = 0 ∨ v i = 1) : nnH1 net v = trH1 net v := by
  funext j
  rw [nnH1, trH1, nnH1pre_eq net v hv]

theorem nnH2pre_eq (net : QNet nIn n1 n2) (v : Fin nIn → ℚ)
    (hv : ∀ i, v i = 0 ∨ v i = 1) : nnH2pre net v = trZ2 net v := by
  funext k
  rw [nnH2pre, trZ2, nnH1_eq net v hv]
  exact add_comm _ _

theorem nnH2_eq (net : QNet nIn n1 n2) (v : Fin nIn → ℚ)
    (hv : ∀ i, v i = 0 ∨ v i = 1) : nnH2 net v = trH2 net v := by
  funext k
  rw [nnH2, trH2, nnH2pre_eq net v hv]

theorem nnForward_eq_trOut (net : QNet nIn n1 n2) (v : Fin nIn → ℚ)
    (hv : ∀ i, v i = 0 ∨ v i = 1) : nnForward net v = trOut net v := by
  rw [nnForward, trOut, nnH2_eq net v hv]
  exact add_comm _ _

/-- Claim C3: on every 0/1 feature vector and every parameter set, the
sparse-accumulation forward pass of `NNUENetwork.forward` (bias plus sum of
the `w1` rows at the active indices) returns the same output as the dense
vector-matrix forward pass of `NNUETrainer.forward`. -/
theorem c3_sparse_dense (net : QNet nIn n1 n2) (v : Fin nIn → ℚ)
    (hv : ∀ i, v i = 0 ∨ v i = 1) : nnForward net v = (trForward net v).1 :=
  nnForward_eq_trOut net v hv

/-- Witness for C3 at the actual 768-256-32 architecture. -/
theorem c3_witness :
    (∀ i, vzero768 i = 0 ∨ vzero768 i = 1) ∧
    nnForward qzero768 vzero768 = (trForward qzero768 vzero768).1 :=
  ⟨fun _ => Or.inl rfl, c3_sparse_dense qzero768 vzero768 (fun _ => Or.inl rfl)⟩

/-! ## Batch-of-one versus per-sample update -/

theorem trErr_eq (net : QNet nIn n1 n2) (v : Fin nIn → ℚ) (t : ℚ)
    (hv : ∀ i, v i = 0 ∨ v i = 1) : trErr net v t = nnErr net v (t / 400) := by
  rw [trErr, nnErr, nnForward_eq_trOut net v hv]

theorem trDH2_eq (net : QNet nIn n1 n2) (v : Fin nIn → ℚ) (t : ℚ)
    (hv : ∀ i, v i = 0 ∨ v i = 1) (k : Fin n2) :
    trDH2 net v t 1 k = 2 * nnDH2pre net v (t / 400) k := by
  rw [trDH2, nnDH2pre, trDOut, trErr_eq net v t hv, ← nnH2pre_eq net v hv]
  ring

theorem trDH1_eq (net : QNet nIn n1 n2) (v : Fin nIn → ℚ) (t : ℚ)
    (hv : ∀ i, v i = 0 ∨ v i = 1) (j : Fin n1) :
    trDH1 net v t 1 j = 2 * nnDH1pre net v (t / 400) j := by
  rw [trDH1, nnDH1pre, ← nnH1pre_eq net v hv]
  have hs : ∑ k, trDH2 net v t 1 k * net.w2 j k
      = 2 * ∑ k, nnDH2pre net v (t / 400) k * net.w2 j k := by
    rw [Finset.mul_sum]
    refine Finset.sum_congr rfl fun k _ => ?_
    rw [trDH2_eq net v t hv k]
    ring
  rw [hs]
  ring

theorem qzero_qadd (g : QNet nIn n1 n2) : qadd (qzero nIn n1 n2) g = g := by
  refine QNet.ext ?_ ?_ ?_ ?_ ?_ ?_ <;> simp [qadd, qzero]

theorem trainBatch_single (net : QNet nIn n1 n2) (v : Fin nIn → ℚ) (t lr : ℚ) :
    (trainBatch net [(v, t)] lr).1 = applyGrads net (batchGrad net (v, t) 1) lr := by
  rw [trainBatch]
  simp only [List.foldl_cons, List.foldl_nil, List.length_cons, List.length_nil,
    Nat.zero_add, Nat.cast_one, qzero_qadd]

/-- Claim C5, counterexample.  The claim states that `train_batch` on a
single-sample batch produces exactly the per-sample `backward` update.  It
does not: `train_batch` uses the gradient `d_output = 2 * error /
batch_size` while `backward` uses `error` itself, so on a batch of one the
aggregated update is twice the per-sample update.  At the concrete 1-1-1
network below with target 0 and learning rate 1, `train_batch` moves the
output bias to −1/2 while `backward` moves it to −1/4. -/
theorem c5_counterexample :
    ¬ ((trainBatch exNet [(exV, 0)] 1).1 = singleUpdate exNet exV 0 1) := by
  intro h
  have hb := congrArg QNet.bOut h
  have h1 : (trainBatch exNet [(exV, 0)] 1).1.bOut = -(1 / 2) := by
    rw [trainBatch_single]
    simp only [applyGrads, batchGrad, trDOut, trErr, trOut, trH2, trZ2, trH1, trZ1,
      Fin.sum_univ_one, crelu, exNet, exV]
    norm_num [min_def, max_def]
  have h2 : (singleUpdate exNet exV 0 1).bOut = -(1 / 4) := by
    simp only [singleUpdate, nnErr, nnForward, nnH2, nnH2pre, nnH1, nnH1pre,
      sum_active_eq_dense exV (fun _ => Or.inr rfl), Fin.sum_univ_one, crelu, exNet, exV]
    norm_num [min_def, max_def]
  rw [h1, h2] at hb
  norm_num at hb

/-- Claim C5, amended: on any 0/1 feature vector `v`, raw target `t` and
learning rate `lr`, `train_batch` on the singleton batch `[(v, t)]` equals
the per-sample `backward` update (which its caller feeds the scaled target
`t / 400`) taken at the doubled learning rate `2 * lr` — the factor 2 being
exactly `train_batch`'s `d_output = 2 * error / batch_size` convention
that `backward` lacks. -/
theorem c5_batch_one (net : QNet nIn n1 n2) (v : Fin nIn → ℚ) (t lr : ℚ)
    (hv : ∀ i, v i = 0 ∨ v i = 1) :
    (trainBatch net [(v, t)] lr).1 = singleUpdate net v (t / 400) (2 * lr) := by
  rw [trainBatch_single]
  refine QNet.ext ?_ ?_ ?_ ?_ ?_ ?_
  · funext i j
    show net.w1 i j - lr * (v i * trDH1 net v t 1 j) = _
    show _ = if 0 < v i then net.w1 i j - 2 * lr * nnDH1pre net v (t / 400) j
      else net.w1 i j
    rcases hv i with h | h
    · rw [h, if_neg (by norm_num)]
      ring
    · rw [h, if_pos (by norm_num), trDH1_eq net v t hv j]
      ring
  · funext j
    show net.b1 j - lr * trDH1 net v t 1 j = net.b1 j - 2 * lr * nnDH1pre net v (t / 400) j
    rw [trDH1_eq net v t hv j]
    ring
  · funext j k
    show net.w2 j k - lr * (trH1 net v j * trDH2 net v t 1 k)
      = net.w2 j k - 2 * lr * (nnH1 net v j * nnDH2pre net v (t / 400) k)
    rw [trDH2_eq net v t hv k, ← nnH1_eq net v hv]
    ring
  · funext k
    show net.b2 k - lr * trDH2 net v t 1 k
      = net.b2 k - 2 * lr * nnDH2pre net v (t / 400) k
    rw [trDH2_eq net v t hv k]
    ring
  · funext k
    show net.w3 k - lr * (trDOut net v t 1 * trH2 net v k)
      = net.w3 k - 2 * lr * (nnErr net v (t / 400) * nnH2 net v k)
    rw [trDOut, trErr_eq net v t hv, ← nnH2_eq net v hv]
    ring
  · show net.bOut - lr * trDOut net v t 1 = net.bOut - 2 * lr * nnErr net v (t / 400)
    rw [trDOut, trErr_eq net v t hv]
    ring

/-- Witness for C5's amended theorem at the concrete 1-1-1 instance. -/
theorem c5_witness :
    (∀ i, exV i = 0 ∨ exV i = 1) ∧
    (trainBatch exNet [(exV, 3)] 1).1 = singleUpdate exNet exV (3 / 400) (2 * 1) :=
  ⟨fun _ => Or.inr rfl, c5_batch_one exNet exV 3 1 (fun _ => Or.inr rfl)⟩

/-! ## Frame property of the input-weight rows -/

theorem gradFold_w1_eq (net : QNet nIn n1 n2) (B : ℚ)
    (samples : List ((Fin nIn → ℚ) × ℚ)) (acc : QNet nIn n1 n2)
    (i : Fin nIn) (j : Fin n1) (h : ∀ s ∈ samples, s.1 i = 0) :
    (samples.foldl (fun a s => qadd a (batchGrad net s B)) acc).w1 i j = acc.w1 i j := by
  induction samples generalizing acc with
  | nil => rfl
  | cons s ss ih =>
    rw [List.foldl_cons, ih _ (fun x hx => h x (List.mem_cons_of_mem _ hx))]
    show acc.w1 i j + s.1 i * trDH1 net s.1 s.2 B j = acc.w1 i j
    rw [h s (List.mem_cons_self _ _), zero_mul, add_zero]

/-- Claim C8: in the per-sample update (`NNUENetwork.backward`) every row of
`w1` whose index is not active (feature not positive) is unchanged, and in
the aggregated batch update (`NNUETrainer.train_batch`) every row of `w1`
whose index is inactive (feature zero) in every sample of the batch is
unchanged: only rows at the step's active indices change. -/
theorem c8_frame (net : QNet nIn n1 n2) (v : Fin nIn → ℚ) (tg lr : ℚ)
    (samples : List ((Fin nIn → ℚ) × ℚ)) (i : Fin nIn) (j : Fin n1) :
    (¬ 0 < v i → (singleUpdate net v tg lr).w1 i j = net.w1 i j) ∧
    ((∀ s ∈ samples, s.1 i = 0) →
      (trainBatch net samples lr).1.w1 i j = net.w1 i j) := by
  constructor
  · intro h
    show (if 0 < v i then net.w1 i j - lr * nnDH1pre net v tg j else net.w1 i j)
      = net.w1 i j
    rw [if_neg h]
  · intro h
    show net.w1 i j
        - lr * (samples.foldl (fun a s => qadd a (batchGrad net s (samples.length : ℚ)))
            (qzero nIn n1 n2)).w1 i j
      = net.w1 i j
    rw [gradFold_w1_eq net _ samples (qzero nIn n1 n2) i j h]
    show net.w1 i j - lr * 0 = net.w1 i j
    ring

/-- Witness for C8 at a concrete 1-1-1 instance with an inactive index. -/
theorem c8_witness :
    (singleUpdate qz1 zeroV1 0 1).w1 0 0 = qz1.w1 0 0 ∧
    (trainBatch qz1 [(zeroV1, 0)] 1).1.w1 0 0 = qz1.w1 0 0 :=
  ⟨(c8_frame qz1 zeroV1 0 1 [(zeroV1, 0)] 0 0).1 (by decide),
   (c8_frame qz1 zeroV1 0 1 [(zeroV1, 0)] 0 0).2 (by decide)⟩

/-! ## Target labeller -/

/-- Claim C6: `calculate_target_eval` returns
`(1 - w) * material + w * (result * 300)` with blend weight
`w = min(0.8, ply / 100)`; the weight is non-decreasing in the ply and
never exceeds 0.8. -/
theorem c6_target_labeler (p q : ℕ) (o s : ℚ) (hpq : p ≤ q) :
    calculateTargetEval p o s
      = (1 - min ((8 : ℚ) / 10) ((p : ℚ) / 100)) * s
        + min ((8 : ℚ) / 10) ((p : ℚ) / 100) * (o * 300) ∧
    resultWeight p ≤ resultWeight q ∧ resultWeight p ≤ 8 / 10 := by
  refine ⟨rfl, ?_, min_le_left _ _⟩
  refine min_le_min le_rfl ?_
  have h100 : (0 : ℚ) < 100 := by norm_num
  exact (div_le_div_iff_of_pos_right h100).mpr (by exact_mod_cast hpq)

/-- Witness for C6 at ply 50 ≤ 60, outcome +1, static evaluation 0. -/
theorem c6_witness :
    calculateTargetEval 50 1 0
      = (1 - min ((8 : ℚ) / 10) (((50 : ℕ) : ℚ) / 100)) * 0
        + min ((8 : ℚ) / 10) (((50 : ℕ) : ℚ) / 100) * (1 * 300) ∧
    resultWeight 50 ≤ resultWeight 60 ∧ resultWeight 50 ≤ 8 / 10 :=
  c6_target_labeler 50 60 1 0 (by decide)

/-! ## Evaluator-failure fallback -/

/-- Claim C7, counterexample.  The claim states that when the external
evaluator call fails, the training target is the material evaluation.  It
is not: the bare `except` in `extract_positions_from_pgn` substitutes the
game's `result_score`.  Concretely, on a material-balanced board (one white
pawn, one black pawn, material 0) from a game white won (result score 1),
the substituted target is 1, not the material evaluation 0. -/
theorem c7_counterexample :
    analyseTarget (fun x => x) none 1 = 1 ∧
    simpleMaterialEval pawnsBalanced = 0 ∧
    analyseTarget (fun x => x) none 1 ≠ ((simpleMaterialEval pawnsBalanced : ℤ) : ℚ) := by
  have h : simpleMaterialEval pawnsBalanced = 0 := by decide
  refine ⟨rfl, h, ?_⟩
  rw [h]
  show (1 : ℚ) ≠ ((0 : ℤ) : ℚ)
  norm_num

/-- Claim C7, amended: a failure of the evaluator call is caught locally
(the per-position target is always defined, with no exception escaping to
the caller), but the substituted value is the game's result score, not the
material evaluation; a successful call yields the logistic squash of the
centipawn score. -/
theorem c7_fallback (sig : ℚ → ℚ) (cp : ℤ) (r : ℚ) :
    analyseTarget sig none r = r ∧ analyseTarget sig (some cp) r = sig (cp : ℚ) :=
  ⟨rfl, rfl⟩

/-! ## Square-convention agreement of the two feature encoders -/

/-- The two encoders disagree on every single placement: the rank is
mirrored in one and not the other, and `(7 - r) * 8 + f = r * 8 + f` has no
integer solution with `0 ≤ r ≤ 7`. -/
theorem featureIdx_pointwise_ne (p : Placement) :
    featureIdxRemap p ≠ featureIdxDirect p := by
  have h : ∀ sq : Fin 64, engineSquare sq ≠ sq.val := by decide
  intro hEq
  rw [featureIdxRemap, featureIdxDirect] at hEq
  exact h p.2.2 (by omega)

/-- Claim C4 (code bug, evaluated at the failing input): the two feature
encoders do not use the same square convention.  `board_to_features`
(train_nnue.py) maps a white pawn on a1 to feature index 56 (a8 = 0
remap), while `board_to_input` (train_from_lichess.py) maps it to index 0
(python-chess a1 = 0 square kept as-is), so the two feature-index sets for
the same board differ. -/
theorem c4_encoder_mismatch :
    featuresRemap pawnA1 = {56} ∧ featuresDirect pawnA1 = {0} ∧
    featuresRemap pawnA1 ≠ featuresDirect pawnA1 := by
  refine ⟨?_, ?_, ?_⟩ <;> decide

/-! ## Epoch batching: dropped and processed partial batches -/

theorem chunksF_flatten (bs : ℕ) (hbs : 1 ≤ bs) :
    ∀ (fuel : ℕ) (l : List α), l.length ≤ fuel → (chunksF fuel bs l).flatten = l := by
  intro fuel
  induction fuel with
  | zero =>
    intro l hl
    cases l with
    | nil => rfl
    | cons x xs => simp at hl
  | succ f ih =>
    intro l hl
    cases l with
    | nil => rfl
    | cons x xs =>
      have hbs1 : bs - 1 + 1 = bs := by omega
      rw [chunksF, List.flatten_cons,
        ih (xs.drop (bs - 1)) (by rw [List.length_drop]; simp at hl; omega)]
      rw [show (x :: xs).take bs = x :: xs.take (bs - 1) from by
        rw [← hbs1, List.take_succ_cons]
        norm_num]
      rw [List.cons_append, List.take_append_drop]

theorem innerFold_count (lr : ℚ) (batch : List ((Fin nIn → ℚ) × ℚ))
    (st : QNet nIn n1 n2 × ℕ) :
    (batch.foldl (fun st2 s => (singleUpdate st2.1 s.1 (s.2 / 400) lr, st2.2 + 1)) st).2
      = st.2 + batch.length := by
  induction batch generalizing st with
  | nil => rfl
  | cons s ss ih =>
    rw [List.foldl_cons, ih]
    show st.2 + 1 + ss.length = st.2 + (ss.length + 1)
    omega

theorem nnueEpoch_count (net : QNet nIn n1 n2) (samples : List ((Fin nIn → ℚ) × ℚ))
    (bs : ℕ) (lr : ℚ) (hbs : 1 ≤ bs) :
    (nnueEpoch net samples bs lr).2 = samples.length := by
  rw [nnueEpoch]
  have outer : ∀ (cs : List (List ((Fin nIn → ℚ) × ℚ))) (st : QNet nIn n1 n2 × ℕ),
      (cs.foldl (fun st batch =>
          batch.foldl (fun st2 s => (singleUpdate st2.1 s.1 (s.2 / 400) lr, st2.2 + 1)) st)
        st).2 = st.2 + (cs.map List.length).sum := by
    intro cs
    induction cs with
    | nil => intro st; simp
    | cons c cs ih =>
      intro st
      rw [List.foldl_cons, ih, innerFold_count]
      rw [List.map_cons, List.sum_cons]
      omega
  rw [outer]
  have hflat : ((chunks bs samples).map List.length).sum = samples.length := by
    rw [← List.length_flatten, chunks, chunksF_flatten bs hbs samples.length samples le_rfl]
  rw [hflat]
  show 0 + samples.length = samples.length
  omega

/-- Claim C9, counterexample.  With batch size 64 and 65 samples, the final
slice holds a single sample — fewer than half the nominal batch size — yet
the `train_nnue` epoch loop still runs `backward` on it: the per-epoch
`num_samples` counter reaches 65, not 64.  Only the train_from_lichess
loop drops such batches. -/
theorem c9_counterexample :
    (chunks 64 samples65).map List.length = [64, 1] ∧
    (nnueEpoch qz1 samples65 64 1).2 = 65 := by
  constructor
  · decide
  · rw [nnueEpoch_count qz1 samples65 64 1 (by omega)]
    decide

/-- Claim C9, amended: in the train_from_lichess epoch loop a slice smaller
than `batch_size // 2` is skipped — it triggers no `train_batch` call, no
parameter update, and contributes nothing to the epoch loss or batch count
— whereas the `train_nnue` epoch loop performs the per-sample backward
update on every sample of every slice, including any final partial batch,
whatever its size. -/
theorem c9_partial_batch :
    (∀ (bs : ℕ) (lr : ℚ) (st : QNet nIn n1 n2 × ℚ × ℕ)
        (batch : List ((Fin nIn → ℚ) × ℚ)), batch.length < bs / 2 →
        lichessStep bs lr st batch = st) ∧
    (∀ (bs : ℕ) (net : QNet nIn n1 n2) (samples : List ((Fin nIn → ℚ) × ℚ)) (lr : ℚ),
        1 ≤ bs → (nnueEpoch net samples bs lr).2 = samples.length) := by
  constructor
  · intro bs lr st batch h
    rw [lichessStep, if_pos h]
  · intro bs net samples lr hbs
    exact nnueEpoch_count net samples bs lr hbs

/-- Witness for C9's amended theorem at batch size 64. -/
theorem c9_witness :
    lichessStep 64 1 (qz1, 0, 0) ([] : List ((Fin 1 → ℚ) × ℚ)) = (qz1, 0, 0) ∧
    (nnueEpoch qz1 samples65 64 1).2 = samples65.length :=
  ⟨c9_partial_batch.1 64 1 (qz1, 0, 0) [] (by decide),
   c9_partial_batch.2 64 qz1 samples65 1 (by decide)⟩

/-! ## In-place updates on a loaded network -/

theorem backwardFlagged_loaded (q : QNet nIn n1 n2) (v : Fin nIn → ℚ) (tg lr : ℚ) :
    backwardFlagged (loadedFlagNet q) v tg lr
      = (⟨{ q with bOut := q.bOut - lr * nnErr q v tg }, false, false, false, false, false⟩,
         false) := rfl

theorem backwardFlagged_fresh (q : QNet nIn n1 n2) (v : Fin nIn → ℚ) (tg lr : ℚ) :
    backwardFlagged (freshFlagNet q) v tg lr
      = (⟨singleUpdate q v tg lr, true, true, true, true, true⟩, true) := by
  rw [backwardFlagged]
  simp only [freshFlagNet]
  norm_num
  by_cases hc : (activeIdx v).Nonempty
  · rw [if_pos hc]
    rfl
  · rw [if_neg hc]
    have hv : ∀ i, ¬ 0 < v i := by
      intro i hi
      exact hc ⟨i, Finset.mem_filter.mpr ⟨Finset.mem_univ i, hi⟩⟩
    refine Prod.ext ?_ rfl
    show (⟨_, true, true, true, true, true⟩ : FlagNet nIn n1 n2)
      = ⟨singleUpdate q v tg lr, true, true, true, true, true⟩
    congr 1
    refine QNet.ext ?_ rfl rfl rfl rfl rfl
    funext i j
    show q.w1 i j = if 0 < v i then q.w1 i j - lr * nnDH1pre q v tg j else q.w1 i j
    rw [if_neg (hv i)]

/-- Claim C10: on a network whose parameter arrays were loaded with
`NNUENetwork.load` (read-only `np.frombuffer` views), the first in-place
array update of `backward` (`hidden2_weights -=`) raises, so the call fails
and every parameter array is left unchanged (only the scalar `output_bias`,
which is rebound rather than mutated in place, has been updated by then);
on a freshly initialized network the same call succeeds and performs the
full in-place update.  The in-place update path therefore succeeds only on
a freshly initialized network, never on one resumed from a checkpoint. -/
theorem c10_load_readonly (q : QNet nIn n1 n2) (v : Fin nIn → ℚ) (tg lr : ℚ) :
    ((backwardFlagged (loadedFlagNet q) v tg lr).2 = false ∧
     (backwardFlagged (loadedFlagNet q) v tg lr).1.net.w1 = q.w1 ∧
     (backwardFlagged (loadedFlagNet q) v tg lr).1.net.b1 = q.b1 ∧
     (backwardFlagged (loadedFlagNet q) v tg lr).1.net.w2 = q.w2 ∧
     (backwardFlagged (loadedFlagNet q) v tg lr).1.net.b2 = q.b2 ∧
     (backwardFlagged (loadedFlagNet q) v tg lr).1.net.w3 = q.w3) ∧
    ((backwardFlagged (freshFlagNet q) v tg lr).2 = true ∧
     (backwardFlagged (freshFlagNet q) v tg lr).1.net = singleUpdate q v tg lr) := by
  refine ⟨⟨?_, ?_, ?_, ?_, ?_, ?_⟩, ?_, ?_⟩
  · rw [backwardFlagged_loaded]
  · rw [backwardFlagged_loaded]
  · rw [backwardFlagged_loaded]
  · rw [backwardFlagged_loaded]
  · rw [backwardFlagged_loaded]
  · rw [backwardFlagged_loaded]
  · rw [backwardFlagged_fresh]
  · rw [backwardFlagged_fresh]

end Fe64
